import Mathlib

/-!
Verification of the InvoiceAnalytics reporting API.

This file gives a shallow embedding of the read-only reporting surface of the
invoice-analytics application: the cash-outflow, invoice-trends, top-vendors,
category-spend, stats, invoice-search and chat-proxy route handlers, together
with the parts of the data model they read (invoices, payments, line items,
vendors, categories).

Sources embedded (the current Express + Prisma API under apps/api, the one
mounted by the serverless entry point and queried by the client components):
  - cash outflow  : apps/api/src/routes/cashflow.ts
  - trends        : the invoice-trends route revision carrying the basis
                    selector and the zero-filled 12-month window (the revision
                    the client dashboard queries with basis=due)
  - top vendors   : apps/api/src/routes/vendors.ts
  - category spend: the category-spend route (zero-argument GET handler)
  - stats         : apps/api/src/routes/stats.ts
  - invoices      : apps/api/src/routes/invoices.ts
  - chat proxy    : apps/api/src/routes/chat.ts

Modelling conventions: JavaScript numbers become exact rationals, JS Date
values become year/month/day records compared through an injective integer
key, JS Map objects with insertion order become association lists built by
the same upsert discipline as the source, and plain keyed records used only
through lookups become functions updated pointwise.
-/

namespace InvoiceAnalytics

/-! ### Calendar model

A JS Date is modelled by its local calendar components. The month is 0-based,
exactly as returned by getMonth. Chronological comparison of dates is the
comparison of an injective integer key, which for well-formed dates agrees
with the lexicographic year/month/day order, hence with timestamp order.
-/

/-- Calendar date: year, 0-based month, day of month. -/
structure YMDate where
  year : Int
  month : Int
  day : Int
deriving DecidableEq, Repr

/-- Well-formedness of a date as a JS Date would normalise it. -/
def YMDate.Valid (d : YMDate) : Prop :=
  0 ≤ d.month ∧ d.month < 12 ∧ 1 ≤ d.day ∧ d.day ≤ 31

instance (d : YMDate) : Decidable d.Valid := by
  unfold YMDate.Valid; infer_instance

/-- Absolute month index, the bucketing key year*12 + month. -/
def YMDate.absMonth (d : YMDate) : Int :=
  d.year * 12 + d.month

/-- Injective chronological key. For valid dates, key order is date order. -/
def YMDate.key (d : YMDate) : Int :=
  d.absMonth * 32 + d.day

/-- First day of the month with absolute index n, as built by the JS
Date constructor, which normalises an out-of-range month argument. -/
def firstOfMonth (n : Int) : YMDate :=
  ⟨n / 12, n % 12, 1⟩

/-- English short month names used by toLocaleDateString with en-US. -/
def monthShortNames : List String :=
  ["Jan", "Feb", "Mar", "Apr", "May", "Jun",
   "Jul", "Aug", "Sep", "Oct", "Nov", "Dec"]

/-- Chart label for the month with absolute index n, as produced by
toLocaleDateString with month short and year numeric. -/
def monthLabel (n : Int) : String :=
  (monthShortNames.getD (n % 12).toNat ("?")) ++ " " ++ toString (n / 12)

/-! ### Data model

The entity records carry exactly the fields the embedded handlers read.
Monetary columns are real columns in the schema; they are modelled as exact
rationals.
-/

/-- Vendor row: identifier and unique display name. -/
structure Vendor where
  id : String
  name : String
deriving DecidableEq, Repr

/-- Customer row. -/
structure Customer where
  id : String
  name : String
deriving DecidableEq, Repr

/-- Category row. -/
structure Category where
  id : String
  name : String
deriving DecidableEq, Repr

/-- Invoice row, with the columns the reporting handlers read. -/
structure Invoice where
  id : String
  invoiceNumber : String
  vendorId : String
  customerId : String
  issueDate : YMDate
  dueDate : YMDate
  status : String
  total : ℚ
  currency : String
deriving DecidableEq, Repr

/-- Line item row; the category reference is optional. -/
structure LineItem where
  id : String
  invoiceId : String
  categoryId : Option String
  amount : ℚ
deriving DecidableEq, Repr

/-- Payment row against an invoice. -/
structure Payment where
  id : String
  invoiceId : String
  amount : ℚ
deriving DecidableEq, Repr

/-- The relational store the handlers query. -/
structure Store where
  vendors : List Vendor := []
  customers : List Customer := []
  categories : List Category := []
  invoices : List Invoice := []
  lineItems : List LineItem := []
  payments : List Payment := []
deriving DecidableEq, Repr

/-- Vendor name reached through the required vendor relation of an invoice. -/
def vendorNameOf (s : Store) (vid : String) : String :=
  ((s.vendors.find? fun v => v.id == vid).map Vendor.name).getD ("")

/-! ### Shared helpers mirroring JS idioms -/

/-- Rounding to 2 decimal places: Math.round(x * 100) / 100, with
Math.round x = floor (x + 1/2). -/
def round2 (q : ℚ) : ℚ :=
  (⌊q * 100 + 1/2⌋ : ℚ) / 100

/-- ASCII lowering as toLowerCase acts on the identifiers involved. -/
def jsToLower (t : String) : String :=
  ⟨t.data.map Char.toLower⟩

/-- Case-insensitive substring test, the contains filter with mode
insensitive. -/
def strContainsCI (h n : String) : Bool :=
  (List.range (h.data.length + 1)).any fun i =>
    (jsToLower n).data.isPrefixOf ((jsToLower h).data.drop i)

/-- JS a || b on an optional string, where the empty string is falsy. -/
def jsStrOr (a : Option String) (b : String) : String :=
  match a with
  | none => b
  | some t => if t = "" then b else t

/-- JS a || b chaining two optional strings, where the empty string is
falsy. -/
def jsStrOrOpt (a b : Option String) : Option String :=
  match a with
  | none => b
  | some t => if t = "" then b else some t

/-! ### Month buckets

The cash-outflow and trends handlers keep a plain record object whose keys
are a fixed list of month keys, initialise every key to zero, and add a
contribution under the guard that the key is one of the initialised ones.
Only lookups at the fixed keys are ever performed, so the record is modelled
as a function out of the key space, updated pointwise under the same guard.
-/

/-- Consecutive absolute month indices, n of them, starting at start: the
month window built by the handlers before bucketing. -/
def monthsFrom (start : Int) (n : Nat) : List Int :=
  (List.range n).map fun i : Nat => start + (i : Int)

/-- Guarded pointwise addition into a keyed record of monoid values. -/
def guardedAdd {M : Type} [AddCommMonoid M] (keys : List Int) (t : Int → M)
    (k : Int) (v : M) : Int → M :=
  if k ∈ keys then (fun m => if m = k then t m + v else t m) else t

/-- Fold a list into zero-initialised month buckets, adding the value of
each element under its key, guarded by membership in the fixed key list. -/
def bucketTotals {α M : Type} [AddCommMonoid M] (keys : List Int)
    (key : α → Int) (val : α → M) (xs : List α) : Int → M :=
  xs.foldl (fun t x => guardedAdd keys t (key x) (val x)) fun _ => 0

/-- Insertion-ordered JS Map upsert: update the value in place if the key is
present, append a fresh entry otherwise. -/
def mapUpsert {V : Type} (add : V → V → V) (m : List (String × V))
    (k : String) (v : V) : List (String × V) :=
  if m.any fun p => p.1 == k then
    m.map fun p => if p.1 == k then (p.1, add p.2 v) else p
  else m ++ [(k, v)]

/-- Accumulate rows into an insertion-ordered JS Map, combining values of
equal keys with add. -/
def mapAccum {V : Type} (add : V → V → V) (rows : List (String × V)) :
    List (String × V) :=
  rows.foldl (fun m r => mapUpsert add m r.1 r.2) []

/-! ### Response shapes -/

/-- Chart payload of labels and data, the shape of the top-vendors,
category-spend and cash-outflow responses. -/
structure ChartData where
  labels : List String
  data : List ℚ
deriving DecidableEq, Repr

/-- One dataset of the trends response. -/
structure TrendsDataset where
  label : String
  data : List ℚ
  yAxisID : String
deriving DecidableEq, Repr

/-- Trends response: shared labels and two datasets. -/
structure TrendsData where
  labels : List String
  datasets : List TrendsDataset
deriving DecidableEq, Repr

/-- Stats response body. -/
structure StatsBody where
  totalSpendYTD : ℚ
  totalInvoices : Nat
  documentsUploaded : Nat
  avgInvoiceAmount : ℚ
deriving DecidableEq, Repr

/-- Pagination metadata of the invoice-search response. -/
structure Pagination where
  total : Nat
  limit : Nat
  offset : Nat
  hasMore : Bool
deriving DecidableEq, Repr

/-- Invoice-search response. The rows carry the invoice columns; the nested
vendor and customer names are recovered through the store when needed. -/
structure InvoicesResult where
  data : List Invoice
  pagination : Pagination
deriving DecidableEq, Repr

/-! ### Cash outflow route

Embedding of the GET cash-outflow handler: build the six months from the
current one, fetch non-cancelled invoices due inside the half-open range,
sum payments per invoice id, and bucket max(total - paid, 0) by due month.
-/

/-- Total paid per invoice id: the reduce of the payments list into a map,
modelled as a pointwise-updated function since only lookups are used. -/
def paidByInvoice (pays : List Payment) : String → ℚ :=
  pays.foldl (fun m p => fun k => if k = p.invoiceId then m k + p.amount else m k)
    fun _ => 0

/-- Cash-outflow handler. The parameter now stands for new Date() at request
time. -/
def getCashOutflow (now : YMDate) (s : Store) : ChartData :=
  let months : List Int := monthsFrom now.absMonth 6
  let labels := months.map monthLabel
  let startKey := (firstOfMonth now.absMonth).key
  let endKey := (firstOfMonth (now.absMonth + 6)).key
  let fetched := s.invoices.filter fun inv =>
    decide (inv.status ≠ "cancelled" ∧ startKey ≤ inv.dueDate.key ∧ inv.dueDate.key < endKey)
  let invoiceIds := fetched.map Invoice.id
  let relevantPays :=
    if invoiceIds.isEmpty then []
    else s.payments.filter fun p => invoiceIds.contains p.invoiceId
  let paid := paidByInvoice relevantPays
  let totals := bucketTotals months (fun inv => inv.dueDate.absMonth)
    (fun inv => max (inv.total - paid inv.id) 0) fetched
  { labels := labels, data := months.map fun m => round2 (totals m) }

/-! ### Trends route

Embedding of the GET invoice-trends handler revision with the basis
selector: resolve the basis, build the last 12 months ending at the current
one, fetch non-cancelled invoices whose basis date is at or after the first
of the oldest month, and bucket amount and count by basis month.
-/

/-- The 12-month window of the trends route, oldest first. -/
def trendsMonths (now : YMDate) : List Int :=
  monthsFrom (now.absMonth - 11) 12

/-- Basis date of an invoice: due date when the resolved basis is due,
issue date otherwise. -/
def basisDate (useDue : Bool) (inv : Invoice) : YMDate :=
  if useDue then inv.dueDate else inv.issueDate

/-- Resolution of the basis query parameter, String(basis || issue)
lowercased compared with due. -/
def resolveBasis (basis : Option String) : Bool :=
  jsToLower (jsStrOr basis ("issue")) == "due"

/-- The fetch of the trends handler: non-cancelled invoices whose basis
date is at or after the first day of the oldest window month. -/
def trendsFetched (basis : Option String) (now : YMDate) (s : Store) :
    List Invoice :=
  s.invoices.filter fun inv =>
    decide (inv.status ≠ "cancelled"
      ∧ (firstOfMonth (now.absMonth - 11)).key ≤ (basisDate (resolveBasis basis) inv).key)

/-- The sums record of the trends handler: zero-initialised amount and
count per window month, accumulated under the month-key guard. -/
def trendsSums (basis : Option String) (now : YMDate) (s : Store) :
    Int → ℚ × ℕ :=
  bucketTotals (trendsMonths now)
    (fun inv => (basisDate (resolveBasis basis) inv).absMonth)
    (fun inv => ((inv.total, 1) : ℚ × ℕ))
    (trendsFetched basis now s)

/-- Trends handler. -/
def getInvoiceTrends (basis : Option String) (now : YMDate) (s : Store) :
    TrendsData :=
  { labels := (trendsMonths now).map monthLabel
    datasets :=
      [ { label := "Total Amount"
          data := (trendsMonths now).map fun m => round2 (trendsSums basis now s m).1
          yAxisID := "y-amount" },
        { label := "Invoice Count"
          data := (trendsMonths now).map fun m => ((trendsSums basis now s m).2 : ℚ)
          yAxisID := "y-count" } ] }

/-- The default dataset used when indexing into the dataset list. -/
def emptyDataset : TrendsDataset :=
  { label := "", data := [], yAxisID := "" }

/-! ### Top vendors route

Embedding of the GET vendors/top10 handler: fetch non-cancelled invoices
with their vendor, accumulate totals per vendor id in an insertion-ordered
map keeping the first-seen name, sort descending by total, take 10, round.
-/

/-- The joined fetch of the vendors handler, keyed for aggregation: one row
per non-cancelled invoice carrying vendor id, vendor name and total. -/
def vendorRows (s : Store) : List (String × (String × ℚ)) :=
  (s.invoices.filter fun inv => decide (inv.status ≠ "cancelled")).map
    fun inv => (inv.vendorId, (vendorNameOf s inv.vendorId, inv.total))

/-- The vendorTotals map of the handler: totals accumulated per vendor id,
keeping the first-seen name. -/
def vendorTotals (s : Store) : List (String × (String × ℚ)) :=
  mapAccum (fun old new => (old.1, old.2 + new.2)) (vendorRows s)

/-- The top10 array of the handler: values sorted descending by total,
first ten kept. -/
def vendorTop10 (s : Store) : List (String × ℚ) :=
  (((vendorTotals s).map Prod.snd).mergeSort fun a b => decide (b.2 ≤ a.2)).take 10

/-- Top-vendors handler. The route always requests the top 10. -/
def getTopVendors (s : Store) : ChartData :=
  { labels := (vendorTop10 s).map Prod.fst
    data := (vendorTop10 s).map fun v => round2 v.2 }

/-! ### Category spend route

Embedding of the GET category-spend handler: fetch all line items with
their optional category, bucket amounts per category name with the literal
Uncategorized fallback, round each bucket, sort descending.
-/

/-- Bucket name of a line item: the name of its category when the reference
resolves and the name is truthy, the literal Uncategorized otherwise. -/
def categoryNameOf (s : Store) (item : LineItem) : String :=
  match item.categoryId.bind fun cid => s.categories.find? fun c => c.id == cid with
  | some c => if c.name = "" then "Uncategorized" else c.name
  | none => "Uncategorized"

/-- The fetch of the category-spend handler, keyed for aggregation: one row
per line item carrying its bucket name and amount. -/
def categoryRows (s : Store) : List (String × ℚ) :=
  s.lineItems.map fun item => (categoryNameOf s item, item.amount)

/-- The categoryTotals map of the handler: amounts accumulated per bucket
name in insertion order. -/
def categoryTotals (s : Store) : List (String × ℚ) :=
  mapAccum (fun old new => old + new) (categoryRows s)

/-- The categories array of the handler: rounded totals sorted descending. -/
def categorySorted (s : Store) : List (String × ℚ) :=
  ((categoryTotals s).map fun e => (e.1, round2 e.2)).mergeSort
    fun a b => decide (b.2 ≤ a.2)

/-- Category-spend handler. -/
def getCategorySpend (s : Store) : ChartData :=
  { labels := (categorySorted s).map Prod.fst
    data := (categorySorted s).map Prod.snd }

/-! ### Stats route

Embedding of the GET stats handler, including its catch branch: the
database read either yields a store or fails, and on failure the handler
still answers 200 with the zeroed body.
-/

/-- Zeroed stats body of the graceful fallback. -/
def zeroStats : StatsBody :=
  { totalSpendYTD := 0, totalInvoices := 0, documentsUploaded := 0
    avgInvoiceAmount := 0 }

/-- Stats aggregation of the try branch. -/
def computeStats (now : YMDate) (s : Store) : StatsBody :=
  let yearStart : YMDate := ⟨now.year, 0, 1⟩
  let ytd := s.invoices.filter fun inv =>
    decide (yearStart.key ≤ inv.issueDate.key ∧ inv.status ≠ "cancelled")
  let sumT := (ytd.map Invoice.total).sum
  let totalInvoices :=
    (s.invoices.filter fun inv => decide (inv.status ≠ "cancelled")).length
  { totalSpendYTD := sumT
    totalInvoices := totalInvoices
    documentsUploaded := totalInvoices
    avgInvoiceAmount := if ytd.length = 0 then 0 else sumT / ytd.length }

/-- Stats route with its failure policy: a failed read still answers 200
with the zeroed body. -/
def statsRoute (db : Except Unit Store) (now : YMDate) : Nat × StatsBody :=
  match db with
  | .ok s => (200, computeStats now s)
  | .error _ => (200, zeroStats)

/-! ### Invoice search route

Embedding of the GET invoices handler: optional text, status and issue-date
filters, a count query, and a page ordered by issue date descending.
-/

/-- Query parameters of the invoice-search route, with the server defaults
for omitted parameters. -/
structure InvoicesQuery where
  q : String := ""
  status : String := ""
  dateFrom : Option YMDate := none
  dateTo : Option YMDate := none
  limit : Nat := 20
  offset : Nat := 0
deriving DecidableEq, Repr

/-- The where clause built by the handler, as a predicate on an invoice. -/
def invoiceMatches (s : Store) (p : InvoicesQuery) (inv : Invoice) : Bool :=
  (p.q == "" || strContainsCI inv.invoiceNumber p.q
    || strContainsCI (vendorNameOf s inv.vendorId) p.q)
  && (p.status == "" || inv.status == p.status)
  && (match p.dateFrom with
      | none => true
      | some d => decide (d.key ≤ inv.issueDate.key))
  && (match p.dateTo with
      | none => true
      | some d => decide (inv.issueDate.key ≤ d.key))

/-- The rows matching the where clause, the set both queries run over. -/
def invoicesFiltered (s : Store) (p : InvoicesQuery) : List Invoice :=
  s.invoices.filter (invoiceMatches s p)

/-- The matching rows ordered by issue date descending. -/
def invoicesSorted (s : Store) (p : InvoicesQuery) : List Invoice :=
  (invoicesFiltered s p).mergeSort fun a b =>
    decide (b.issueDate.key ≤ a.issueDate.key)

/-- The requested page: skip offset, take limit. -/
def invoicesPage (s : Store) (p : InvoicesQuery) : List Invoice :=
  ((invoicesSorted s p).drop p.offset).take p.limit

/-- Invoice-search handler. -/
def getInvoices (s : Store) (p : InvoicesQuery) : InvoicesResult :=
  { data := invoicesPage s p
    pagination :=
      { total := (invoicesFiltered s p).length
        limit := p.limit
        offset := p.offset
        hasMore := decide (p.offset + (invoicesPage s p).length
          < (invoicesFiltered s p).length) } }

/-! ### Chat proxy route

Embedding of the POST chat-with-data handler. The upstream service is an
opaque dependency whose observable outcomes are success, an HTTP error
response, or a network failure; the handler maps each outcome to a
response.
-/

/-- Observable outcome of the upstream call. For an HTTP error the optional
detail, error and message fields of the upstream body are kept, together
with the client-library message string. -/
inductive ChatUpstream where
  | ok (body : String)
  | httpError (status : Nat) (detail errField msg : Option String)
      (errMessage : String)
  | networkError (errMessage : String)
deriving DecidableEq, Repr

/-- Response of the chat proxy. -/
structure ChatResponse where
  status : Nat
  error : Option String
  message : Option String
  payload : Option String
deriving DecidableEq, Repr

/-- Chat proxy handler. The query is the optional body field; the upstream
outcome is only consulted on the non-empty path. -/
def chatRoute (query : Option String) (upstream : ChatUpstream) :
    ChatResponse :=
  if query.getD ("") = "" then
    { status := 400, error := some "Query is required"
      message := none, payload := none }
  else
    match upstream with
    | .ok body =>
        { status := 200, error := none, message := none, payload := some body }
    | .httpError st detail errField msg errMessage =>
        { status := st
          error := some "Vanna AI service error"
          message := some (jsStrOr (jsStrOrOpt detail (jsStrOrOpt errField msg)) errMessage)
          payload := none }
    | .networkError _ =>
        { status := 503
          error := some "Vanna AI service unavailable"
          message := some "Please ensure the Vanna service is running on port 8000"
          payload := none }

/-! ### Claim-side reference functions

These definitions state, directly from the claim text, what a bucket or a
remaining amount should be. The claim theorems connect the handler
embeddings above to these.
-/

/-- Sum of the payments recorded against an invoice id. -/
def paidSum (pays : List Payment) (invId : String) : ℚ :=
  ((pays.filter fun p => p.invoiceId == invId).map Payment.amount).sum

/-- Remaining unpaid amount of an invoice, floored at zero. -/
def remainingAmount (s : Store) (inv : Invoice) : ℚ :=
  max (inv.total - paidSum s.payments inv.id) 0

/-- Non-cancelled invoices due in the month with absolute index m. -/
def dueInMonth (s : Store) (m : Int) : List Invoice :=
  s.invoices.filter fun inv =>
    decide (inv.status ≠ "cancelled" ∧ inv.dueDate.absMonth = m)

/-- Non-cancelled invoices whose basis date falls in the month with
absolute index m. -/
def trendsMatching (s : Store) (useDue : Bool) (m : Int) : List Invoice :=
  s.invoices.filter fun inv =>
    decide (inv.status ≠ "cancelled" ∧ (basisDate useDue inv).absMonth = m)

/-- Non-cancelled invoices of one vendor. -/
def vendorInvoices (s : Store) (vid : String) : List Invoice :=
  s.invoices.filter fun inv =>
    decide (inv.status ≠ "cancelled" ∧ inv.vendorId = vid)

/-- Line items falling in the bucket with the given name. -/
def bucketItems (s : Store) (name : String) : List LineItem :=
  s.lineItems.filter fun item => decide (categoryNameOf s item = name)

/-- A rational is a whole number of cents. -/
def IsCents (q : ℚ) : Prop :=
  ∃ n : ℤ, q = n / 100

/-! ### Concrete fixtures for counterexamples and witnesses -/

/-- A store with one pending invoice, used to separate the status filter
with the literal all sentinel from the absent status filter. -/
def storePending : Store :=
  { vendors := [⟨"v1", "Acme Corp"⟩]
    customers := [⟨"c1", "Globex"⟩]
    invoices := [⟨"i1", "INV-1", "v1", "c1", ⟨2025, 0, 10⟩, ⟨2025, 1, 10⟩,
      "pending", 100, "USD"⟩] }

/-- A store with a single uncategorised line item of a fractional-cent
amount, exhibiting the rounding loss of the category-spend reconciliation. -/
def storeFractionalCent : Store :=
  { lineItems := [⟨"li1", "i1", none, 1/250⟩] }

/-- A store with a single categorised line item of a whole-cent amount. -/
def storeWholeCent : Store :=
  { categories := [⟨"cat1", "Software"⟩]
    lineItems := [⟨"li1", "i1", some "cat1", 3/100⟩] }

/-- A reference date used by concrete witnesses: June 15, 2025. -/
def juneDate : YMDate := ⟨2025, 5, 15⟩

/-- A store with one pending invoice due in June 2025, paid in part. -/
def storeCash : Store :=
  { vendors := [⟨"v1", "Acme Corp"⟩]
    customers := [⟨"c1", "Globex"⟩]
    invoices := [⟨"i1", "INV-1", "v1", "c1", ⟨2025, 4, 10⟩, ⟨2025, 5, 20⟩,
      "pending", 500, "USD"⟩]
    payments := [⟨"p1", "i1", 200⟩] }

/-- The store of storeCash with the due date moved one month earlier and
nothing else changed, discriminating the due basis of the trends route. -/
def storeCashEarlier : Store :=
  { storeCash with
    invoices := [⟨"i1", "INV-1", "v1", "c1", ⟨2025, 4, 10⟩, ⟨2025, 4, 20⟩,
      "pending", 500, "USD"⟩] }

/-! ### Rounding lemmas -/

theorem round2_zero : round2 0 = 0 := by
  norm_num [round2]

theorem round2_mono {q r : ℚ} (h : q ≤ r) : round2 q ≤ round2 r := by
  unfold round2
  have hf : (⌊q * 100 + 1/2⌋ : ℤ) ≤ ⌊r * 100 + 1/2⌋ := by
    apply Int.floor_mono; nlinarith
  have : ((⌊q * 100 + 1/2⌋ : ℤ) : ℚ) ≤ ((⌊r * 100 + 1/2⌋ : ℤ) : ℚ) :=
    Int.cast_le.mpr hf
  linarith

theorem IsCents.sum_list {l : List ℚ} (h : ∀ q ∈ l, IsCents q) :
    IsCents l.sum := by
  induction l with
  | nil => exact ⟨0, by norm_num⟩
  | cons a t ih =>
    obtain ⟨n, hn⟩ := h a (by simp)
    obtain ⟨m, hm⟩ := ih fun q hq => h q (by simp [hq])
    exact ⟨n + m, by push_cast [List.sum_cons, hn, hm]; ring⟩

theorem round2_cents {q : ℚ} (h : IsCents q) : round2 q = q := by
  obtain ⟨n, rfl⟩ := h
  unfold round2
  have h100 : (n : ℚ) / 100 * 100 + 1/2 = (n : ℚ) + 1/2 := by ring
  rw [h100]
  have : ⌊(n : ℚ) + 1/2⌋ = n + ⌊(1 : ℚ)/2⌋ := Int.floor_int_add n _
  rw [this]
  norm_num

/-! ### Calendar lemmas -/

theorem firstOfMonth_key (n : Int) : (firstOfMonth n).key = n * 32 + 1 := by
  simp only [firstOfMonth, YMDate.key, YMDate.absMonth]
  omega

theorem key_ge_iff {d : YMDate} (hd : d.Valid) (a : Int) :
    (firstOfMonth a).key ≤ d.key ↔ a ≤ d.absMonth := by
  obtain ⟨h1, h2, h3, h4⟩ := hd
  rw [firstOfMonth_key]
  simp only [YMDate.key, YMDate.absMonth] at *
  omega

theorem key_lt_iff {d : YMDate} (hd : d.Valid) (b : Int) :
    d.key < (firstOfMonth b).key ↔ d.absMonth < b := by
  obtain ⟨h1, h2, h3, h4⟩ := hd
  rw [firstOfMonth_key]
  simp only [YMDate.key, YMDate.absMonth] at *
  omega

theorem isEmpty_false_of_mem {α : Type} {l : List α} {a : α} (h : a ∈ l) :
    l.isEmpty = false := by
  cases l with
  | nil => cases h
  | cons b t => rfl

/-! ### Month-window lemmas -/

theorem monthsFrom_length (start : Int) (n : Nat) :
    (monthsFrom start n).length = n := by
  rw [monthsFrom, List.length_map, List.length_range]

theorem monthsFrom_mem (start : Int) {n i : Nat} (hi : i < n) :
    (start + (i : Int)) ∈ monthsFrom start n := by
  rw [monthsFrom]
  exact List.mem_map.mpr ⟨i, List.mem_range.mpr hi, rfl⟩

theorem getD_map_monthsFrom (f : Int → ℚ) (start : Int) {n i : Nat}
    (hi : i < n) (d : ℚ) :
    ((monthsFrom start n).map f).getD i d = f (start + i) := by
  rw [List.getD_eq_getElem?_getD, List.getElem?_map,
    monthsFrom, List.getElem?_map, List.getElem?_range hi]
  rfl

/-! ### Bucket-fold lemmas -/

theorem guardedAdd_at_key {M : Type} [AddCommMonoid M] {keys : List Int}
    {k : Int} (hk : k ∈ keys) (t : Int → M) (v : M) :
    guardedAdd keys t k v k = t k + v := by
  simp [guardedAdd, hk]

theorem guardedAdd_at_other {M : Type} [AddCommMonoid M] {keys : List Int}
    {k m : Int} (h : m ≠ k) (t : Int → M) (v : M) :
    guardedAdd keys t k v m = t m := by
  by_cases hk : k ∈ keys <;> simp [guardedAdd, hk, h]

theorem guardedAdd_foldl {α M : Type} [AddCommMonoid M] (keys : List Int)
    (key : α → Int) (val : α → M) (xs : List α) {m : Int} (hm : m ∈ keys) :
    ∀ init : Int → M,
      (xs.foldl (fun t x => guardedAdd keys t (key x) (val x)) init) m
        = init m + ((xs.filter fun x => decide (key x = m)).map val).sum := by
  induction xs with
  | nil => intro init; simp
  | cons x xs ih =>
    intro init
    rw [List.foldl_cons, ih]
    by_cases hxm : key x = m
    · rw [hxm, guardedAdd_at_key hm]
      have hfilter : (List.filter (fun x => decide (key x = m)) (x :: xs))
          = x :: List.filter (fun x => decide (key x = m)) xs := by
        simp [List.filter_cons, hxm]
      rw [hfilter, List.map_cons, List.sum_cons, add_assoc]
    · rw [guardedAdd_at_other (fun h => hxm h.symm)]
      have hfilter : (List.filter (fun x => decide (key x = m)) (x :: xs))
          = List.filter (fun x => decide (key x = m)) xs := by
        simp [List.filter_cons, hxm]
      rw [hfilter]

theorem bucketTotals_eq {α M : Type} [AddCommMonoid M] (keys : List Int)
    (key : α → Int) (val : α → M) (xs : List α) {m : Int} (hm : m ∈ keys) :
    bucketTotals keys key val xs m
      = ((xs.filter fun x => decide (key x = m)).map val).sum := by
  unfold bucketTotals
  rw [guardedAdd_foldl keys key val xs hm]
  simp

/-! ### Payment-map lemmas -/

theorem paidByInvoice_foldl (pays : List Payment) (k : String) :
    ∀ init : String → ℚ,
      (pays.foldl
        (fun m p => fun x => if x = p.invoiceId then m x + p.amount else m x)
        init) k = init k + paidSum pays k := by
  induction pays with
  | nil => intro init; simp [paidSum]
  | cons p ps ih =>
    intro init
    rw [List.foldl_cons, ih]
    by_cases h : k = p.invoiceId
    · subst h
      simp [paidSum, List.filter_cons]
      ring
    · have hne : (p.invoiceId == k) = false := by
        simp only [beq_eq_false_iff_ne, ne_eq]
        exact fun hh => h hh.symm
      simp [paidSum, List.filter_cons, hne, h]

theorem paidByInvoice_eq (pays : List Payment) (k : String) :
    paidByInvoice pays k = paidSum pays k := by
  unfold paidByInvoice
  rw [paidByInvoice_foldl pays k]
  simp

theorem paidSum_filter_mem (pays : List Payment) (ids : List String)
    {k : String} (hk : k ∈ ids) :
    paidSum (pays.filter fun p => ids.contains p.invoiceId) k
      = paidSum pays k := by
  unfold paidSum
  have hfil : (pays.filter fun a => a.invoiceId == k && ids.contains a.invoiceId)
      = pays.filter fun p => p.invoiceId == k := by
    apply List.filter_congr
    intro p _
    by_cases h : p.invoiceId = k
    · simp [h, hk]
    · simp [beq_eq_false_iff_ne, h]
  rw [List.filter_filter, hfil]

/-! ### Cash outflow: claim C1 -/

theorem cash_filter_month (now : YMDate) (s : Store)
    (hval : ∀ inv ∈ s.invoices, inv.dueDate.Valid) {i : Nat} (hi : i < 6) :
    ((s.invoices.filter fun inv =>
        decide (inv.status ≠ "cancelled"
          ∧ (firstOfMonth now.absMonth).key ≤ inv.dueDate.key
          ∧ inv.dueDate.key < (firstOfMonth (now.absMonth + 6)).key)).filter
      fun inv => decide (inv.dueDate.absMonth = now.absMonth + i))
    = dueInMonth s (now.absMonth + i) := by
  rw [List.filter_filter]
  unfold dueInMonth
  apply List.filter_congr
  intro inv hinv
  have hv := hval inv hinv
  have hge := key_ge_iff hv now.absMonth
  have hlt := key_lt_iff hv (now.absMonth + 6)
  by_cases hc : inv.status = "cancelled"
  · simp [hc]
  · by_cases hm : inv.dueDate.absMonth = now.absMonth + i
    · have h1 : (firstOfMonth now.absMonth).key ≤ inv.dueDate.key :=
        hge.mpr (by omega)
      have h2 : inv.dueDate.key < (firstOfMonth (now.absMonth + 6)).key :=
        hlt.mpr (by omega)
      simp [hc, hm, h1, h2]
    · simp [hm]

theorem getCashOutflow_labels (now : YMDate) (s : Store) :
    (getCashOutflow now s).labels = (monthsFrom now.absMonth 6).map monthLabel :=
  rfl

theorem getCashOutflow_data_length (now : YMDate) (s : Store) :
    (getCashOutflow now s).data.length = 6 := by
  show ((monthsFrom now.absMonth 6).map _).length = 6
  rw [List.length_map, monthsFrom_length]

theorem getCashOutflow_data_getD (now : YMDate) (s : Store)
    (hval : ∀ inv ∈ s.invoices, inv.dueDate.Valid) {i : Nat} (hi : i < 6) :
    (getCashOutflow now s).data.getD i 0
      = round2 (((dueInMonth s (now.absMonth + i)).map (remainingAmount s)).sum) := by
  have hmem : (now.absMonth + (i : Int)) ∈ monthsFrom now.absMonth 6 :=
    monthsFrom_mem now.absMonth hi
  simp only [getCashOutflow]
  rw [getD_map_monthsFrom _ _ hi]
  rw [bucketTotals_eq _ _ _ _ hmem]
  rw [cash_filter_month now s hval hi]
  congr 1
  refine congrArg List.sum ?_
  apply List.map_congr_left
  intro inv hinv
  have hfetched : inv ∈ s.invoices.filter fun inv =>
      decide (inv.status ≠ "cancelled"
        ∧ (firstOfMonth now.absMonth).key ≤ inv.dueDate.key
        ∧ inv.dueDate.key < (firstOfMonth (now.absMonth + 6)).key) := by
    rw [← cash_filter_month now s hval hi] at hinv
    exact List.mem_of_mem_filter hinv
  have hid : inv.id ∈ (s.invoices.filter fun inv =>
      decide (inv.status ≠ "cancelled"
        ∧ (firstOfMonth now.absMonth).key ≤ inv.dueDate.key
        ∧ inv.dueDate.key < (firstOfMonth (now.absMonth + 6)).key)).map Invoice.id :=
    List.mem_map_of_mem Invoice.id hfetched
  have hne := isEmpty_false_of_mem hid
  rw [if_neg (by rw [hne]; decide)]
  rw [paidByInvoice_eq, paidSum_filter_mem _ _ hid]
  rfl

/-- Claim C1: for every store of invoices and payments, the Cash Outflow
operation returns exactly 6 buckets covering the next 6 calendar months
(current month inclusive); each bucket is the rounded sum, over
non-cancelled invoices whose due date falls in that month, of the remaining
amount max(total - sum of its payments, 0); every per-invoice contribution
is non-negative, and months with no due invoices report 0. -/
theorem claim_C1_cashOutflow (now : YMDate) (s : Store)
    (hval : ∀ inv ∈ s.invoices, inv.dueDate.Valid) :
    (getCashOutflow now s).labels = (monthsFrom now.absMonth 6).map monthLabel ∧
    (getCashOutflow now s).data.length = 6 ∧
    (∀ i : Nat, i < 6 → (getCashOutflow now s).data.getD i 0
        = round2 (((dueInMonth s (now.absMonth + i)).map (remainingAmount s)).sum)) ∧
    (∀ inv ∈ s.invoices, 0 ≤ remainingAmount s inv) ∧
    (∀ i : Nat, i < 6 → dueInMonth s (now.absMonth + i) = []
        → (getCashOutflow now s).data.getD i 0 = 0) := by
  refine ⟨getCashOutflow_labels now s, getCashOutflow_data_length now s,
    fun i hi => getCashOutflow_data_getD now s hval hi, ?_, ?_⟩
  · intro inv _
    exact le_max_right _ _
  · intro i hi hempty
    rw [getCashOutflow_data_getD now s hval hi, hempty]
    simpa using round2_zero

/-- Witness for claim C1 at a concrete store and date. -/
theorem claim_C1_cashOutflow_witness :
    (∀ inv ∈ storeCash.invoices, inv.dueDate.Valid) ∧
    (getCashOutflow juneDate storeCash).data.getD 0 0
      = round2 (((dueInMonth storeCash (juneDate.absMonth + 0)).map
          (remainingAmount storeCash)).sum) :=
  ⟨by decide,
    (claim_C1_cashOutflow juneDate storeCash (by decide)).2.2.1 0 (by norm_num)⟩

/-! ### Trends: claims C2 and C7 -/

theorem fst_sum_pairs {A B : Type} [AddCommMonoid A] [AddCommMonoid B]
    (l : List (A × B)) : l.sum.1 = (l.map Prod.fst).sum := by
  induction l with
  | nil => rfl
  | cons a t ih => simp [ih]

theorem snd_sum_pairs {A B : Type} [AddCommMonoid A] [AddCommMonoid B]
    (l : List (A × B)) : l.sum.2 = (l.map Prod.snd).sum := by
  induction l with
  | nil => rfl
  | cons a t ih => simp [ih]

theorem sum_map_ones {α : Type} (l : List α) :
    (l.map fun _ => (1 : ℕ)).sum = l.length := by
  induction l with
  | nil => rfl
  | cons a t ih => simp [ih, Nat.add_comm]

theorem trends_filter_month (now : YMDate) (s : Store) (useDue : Bool)
    (hval : ∀ inv ∈ s.invoices, (basisDate useDue inv).Valid)
    {i : Nat} (hi : i < 12) :
    ((s.invoices.filter fun inv =>
        decide (inv.status ≠ "cancelled"
          ∧ (firstOfMonth (now.absMonth - 11)).key ≤ (basisDate useDue inv).key)).filter
      fun inv => decide ((basisDate useDue inv).absMonth = now.absMonth - 11 + i))
    = trendsMatching s useDue (now.absMonth - 11 + i) := by
  rw [List.filter_filter]
  unfold trendsMatching
  apply List.filter_congr
  intro inv hinv
  have hv := hval inv hinv
  have hge := key_ge_iff hv (now.absMonth - 11)
  by_cases hc : inv.status = "cancelled"
  · simp [hc]
  · by_cases hm : (basisDate useDue inv).absMonth = now.absMonth - 11 + i
    · have h1 : (firstOfMonth (now.absMonth - 11)).key ≤ (basisDate useDue inv).key :=
        hge.mpr (by omega)
      simp [hc, hm, h1]
    · simp [hm]

theorem trendsSums_eq (basis : Option String) (now : YMDate) (s : Store)
    (hval : ∀ inv ∈ s.invoices, (basisDate (resolveBasis basis) inv).Valid)
    {i : Nat} (hi : i < 12) :
    trendsSums basis now s (now.absMonth - 11 + i)
      = ((((trendsMatching s (resolveBasis basis) (now.absMonth - 11 + i)).map
          Invoice.total).sum : ℚ),
         (trendsMatching s (resolveBasis basis) (now.absMonth - 11 + i)).length) := by
  have hmem : (now.absMonth - 11 + (i : Int)) ∈ trendsMonths now :=
    monthsFrom_mem _ hi
  rw [trendsSums, bucketTotals_eq _ _ _ _ hmem]
  rw [show trendsFetched basis now s = s.invoices.filter fun inv =>
      decide (inv.status ≠ "cancelled"
        ∧ (firstOfMonth (now.absMonth - 11)).key
            ≤ (basisDate (resolveBasis basis) inv).key) from rfl]
  rw [trends_filter_month now s (resolveBasis basis) hval hi]
  apply Prod.ext
  · rw [fst_sum_pairs, List.map_map]
    rfl
  · rw [snd_sum_pairs, List.map_map]
    exact sum_map_ones _

theorem trends_amount_getD (basis : Option String) (now : YMDate) (s : Store)
    (hval : ∀ inv ∈ s.invoices, (basisDate (resolveBasis basis) inv).Valid)
    {i : Nat} (hi : i < 12) :
    ((getInvoiceTrends basis now s).datasets.getD 0 emptyDataset).data.getD i 0
      = round2 (((trendsMatching s (resolveBasis basis)
          (now.absMonth - 11 + i)).map Invoice.total).sum) := by
  show ((trendsMonths now).map fun m => round2 (trendsSums basis now s m).1).getD i 0 = _
  rw [show trendsMonths now = monthsFrom (now.absMonth - 11) 12 from rfl]
  rw [getD_map_monthsFrom _ _ hi]
  rw [trendsSums_eq basis now s hval hi]

theorem trends_count_getD (basis : Option String) (now : YMDate) (s : Store)
    (hval : ∀ inv ∈ s.invoices, (basisDate (resolveBasis basis) inv).Valid)
    {i : Nat} (hi : i < 12) :
    ((getInvoiceTrends basis now s).datasets.getD 1 emptyDataset).data.getD i 0
      = ((trendsMatching s (resolveBasis basis)
          (now.absMonth - 11 + i)).length : ℚ) := by
  show ((trendsMonths now).map fun m => ((trendsSums basis now s m).2 : ℚ)).getD i 0 = _
  rw [show trendsMonths now = monthsFrom (now.absMonth - 11) 12 from rfl]
  rw [getD_map_monthsFrom _ _ hi]
  rw [trendsSums_eq basis now s hval hi]

/-- Claim C2: for every store of invoices, the Trends operation returns a
series with exactly 12 entries, ordered oldest-to-newest over consecutive
calendar months ending at the current month, and every month with zero
matching non-cancelled invoices is present with amount 0 and count 0. -/
theorem claim_C2_trends_window (basis : Option String) (now : YMDate) (s : Store)
    (hval : ∀ inv ∈ s.invoices, inv.issueDate.Valid ∧ inv.dueDate.Valid) :
    (getInvoiceTrends basis now s).labels
        = (monthsFrom (now.absMonth - 11) 12).map monthLabel ∧
    (getInvoiceTrends basis now s).labels.length = 12 ∧
    (∀ ds ∈ (getInvoiceTrends basis now s).datasets, ds.data.length = 12) ∧
    (∀ i : Nat, i < 12 →
      ((getInvoiceTrends basis now s).datasets.getD 0 emptyDataset).data.getD i 0
        = round2 (((trendsMatching s (resolveBasis basis)
            (now.absMonth - 11 + i)).map Invoice.total).sum) ∧
      ((getInvoiceTrends basis now s).datasets.getD 1 emptyDataset).data.getD i 0
        = ((trendsMatching s (resolveBasis basis) (now.absMonth - 11 + i)).length : ℚ)) ∧
    (∀ i : Nat, i < 12 →
      trendsMatching s (resolveBasis basis) (now.absMonth - 11 + i) = [] →
      ((getInvoiceTrends basis now s).datasets.getD 0 emptyDataset).data.getD i 0 = 0 ∧
      ((getInvoiceTrends basis now s).datasets.getD 1 emptyDataset).data.getD i 0 = 0) := by
  have hval' : ∀ inv ∈ s.invoices, (basisDate (resolveBasis basis) inv).Valid := by
    intro inv h
    cases hb : resolveBasis basis
    · exact (hval inv h).1
    · exact (hval inv h).2
  refine ⟨rfl, ?_, ?_, fun i hi => ⟨trends_amount_getD basis now s hval' hi,
      trends_count_getD basis now s hval' hi⟩, ?_⟩
  · show ((monthsFrom (now.absMonth - 11) 12).map monthLabel).length = 12
    rw [List.length_map, monthsFrom_length]
  · intro ds hds
    rcases List.mem_cons.mp hds with rfl | hds2
    · show ((trendsMonths now).map _).length = 12
      rw [List.length_map]
      exact monthsFrom_length _ _
    · rcases List.mem_cons.mp hds2 with rfl | hds3
      · show ((trendsMonths now).map _).length = 12
        rw [List.length_map]
        exact monthsFrom_length _ _
      · cases hds3
  · intro i hi hempty
    constructor
    · rw [trends_amount_getD basis now s hval' hi, hempty]
      simpa using round2_zero
    · rw [trends_count_getD basis now s hval' hi, hempty]
      rfl

/-- Witness for claim C2 at a concrete store and date. -/
theorem claim_C2_trends_window_witness :
    (∀ inv ∈ storeCash.invoices, inv.issueDate.Valid ∧ inv.dueDate.Valid) ∧
    (getInvoiceTrends none juneDate storeCash).labels.length = 12 :=
  ⟨by decide,
    (claim_C2_trends_window none juneDate storeCash (by decide)).2.1⟩

/-- Claim C7: for every Trends request, the months are bucketed by the date
field selected by the basis query parameter: due date when basis is due,
issue date when basis is issue or absent (the default); consequently two
stores differing only in due dates yield different results under basis due. -/
theorem claim_C7_trends_basis :
    (∀ (now : YMDate) (s : Store),
      (∀ inv ∈ s.invoices, inv.dueDate.Valid) →
      ∀ i : Nat, i < 12 →
        ((getInvoiceTrends (some "due") now s).datasets.getD 0 emptyDataset).data.getD i 0
          = round2 (((s.invoices.filter fun inv =>
              decide (inv.status ≠ "cancelled"
                ∧ inv.dueDate.absMonth = now.absMonth - 11 + i)).map Invoice.total).sum)) ∧
    (∀ (basis : Option String) (now : YMDate) (s : Store),
      basis = none ∨ basis = some "issue" →
      (∀ inv ∈ s.invoices, inv.issueDate.Valid) →
      ∀ i : Nat, i < 12 →
        ((getInvoiceTrends basis now s).datasets.getD 0 emptyDataset).data.getD i 0
          = round2 (((s.invoices.filter fun inv =>
              decide (inv.status ≠ "cancelled"
                ∧ inv.issueDate.absMonth = now.absMonth - 11 + i)).map Invoice.total).sum)) ∧
    getInvoiceTrends (some "due") juneDate storeCash
      ≠ getInvoiceTrends (some "due") juneDate storeCashEarlier := by
  have hrb : resolveBasis (some "due") = true := by decide
  refine ⟨?_, ?_, ?_⟩
  · intro now s hval i hi
    have hval' : ∀ inv ∈ s.invoices, (basisDate (resolveBasis (some "due")) inv).Valid := by
      intro inv h
      rw [hrb]
      exact hval inv h
    have h := trends_amount_getD (some "due") now s hval' hi
    rw [hrb] at h
    exact h
  · intro basis now s hb hval i hi
    have hrb2 : resolveBasis basis = false := by
      rcases hb with rfl | rfl <;> decide
    have hval' : ∀ inv ∈ s.invoices, (basisDate (resolveBasis basis) inv).Valid := by
      intro inv h
      rw [hrb2]
      exact hval inv h
    have h := trends_amount_getD basis now s hval' hi
    rw [hrb2] at h
    exact h
  · intro heq
    have hval1 : ∀ inv ∈ storeCash.invoices,
        (basisDate (resolveBasis (some "due")) inv).Valid := by decide
    have hval2 : ∀ inv ∈ storeCashEarlier.invoices,
        (basisDate (resolveBasis (some "due")) inv).Valid := by decide
    have h1 := trends_amount_getD (some "due") juneDate storeCash hval1
      (show 11 < 12 by norm_num)
    have h2 := trends_amount_getD (some "due") juneDate storeCashEarlier hval2
      (show 11 < 12 by norm_num)
    have m1 : trendsMatching storeCash (resolveBasis (some "due"))
        (juneDate.absMonth - 11 + (11 : ℕ)) = storeCash.invoices := by decide
    have m2 : trendsMatching storeCashEarlier (resolveBasis (some "due"))
        (juneDate.absMonth - 11 + (11 : ℕ)) = [] := by decide
    rw [m1] at h1
    rw [m2] at h2
    have hproj := congrArg
      (fun r => (r.datasets.getD 0 emptyDataset).data.getD 11 0) heq
    simp only at hproj
    rw [h1, h2] at hproj
    have : (500 : ℚ) = round2 500 := by norm_num [round2]
    rw [show ((storeCash.invoices.map Invoice.total).sum : ℚ) = 500 from by
      norm_num [storeCash], ← this] at hproj
    rw [show (([] : List Invoice).map Invoice.total).sum = (0 : ℚ) from rfl,
      round2_zero] at hproj
    norm_num at hproj

/-- Witness for claim C7 at a concrete store, date and index. -/
theorem claim_C7_trends_basis_witness :
    (∀ inv ∈ storeCash.invoices, inv.dueDate.Valid) ∧
    ((getInvoiceTrends (some "due") juneDate storeCash).datasets.getD 0
        emptyDataset).data.getD 0 0
      = round2 (((storeCash.invoices.filter fun inv =>
          decide (inv.status ≠ "cancelled"
            ∧ inv.dueDate.absMonth = juneDate.absMonth - 11 + (0 : ℕ))).map
          Invoice.total).sum) :=
  ⟨by decide,
    claim_C7_trends_basis.1 juneDate storeCash (by decide) 0 (by norm_num)⟩

/-! ### Insertion-ordered map lemmas -/

theorem mapUpsert_any {V : Type} (add : V → V → V) (m : List (String × V))
    (kIns : String) (v : V) (k : String) :
    ((mapUpsert add m kIns v).any fun p => p.1 == k)
      = ((m.any fun p => p.1 == k) || (kIns == k)) := by
  unfold mapUpsert
  by_cases hp : (m.any fun p => p.1 == kIns) = true
  · rw [if_pos hp, List.any_map]
    have hfun : ((fun p : String × V => p.1 == k) ∘ fun p : String × V =>
        if p.1 == kIns then (p.1, add p.2 v) else p)
        = fun p : String × V => p.1 == k := by
      funext p
      by_cases hc : (p.1 == kIns) = true
      · simp only [Function.comp_apply, if_pos hc]
      · simp only [Function.comp_apply, if_neg hc]
    rw [hfun]
    by_cases hkk : kIns == k
    · have hkeq : kIns = k := by simpa using hkk
      subst hkeq
      simp [hp]
    · simp [hkk]
  · rw [if_neg hp, List.any_append]
    simp

theorem mapUpsert_keys_nodup {V : Type} (add : V → V → V)
    {m : List (String × V)} (hnd : (m.map Prod.fst).Nodup)
    (kIns : String) (v : V) :
    ((mapUpsert add m kIns v).map Prod.fst).Nodup := by
  unfold mapUpsert
  by_cases hp : (m.any fun p => p.1 == kIns) = true
  · rw [if_pos hp, List.map_map]
    have hpt : ∀ p ∈ m, (Prod.fst ∘ fun p : String × V =>
        if p.1 == kIns then (p.1, add p.2 v) else p) p = p.1 := by
      intro p _
      by_cases hc : (p.1 == kIns) = true
      · simp only [Function.comp_apply, if_pos hc]
      · simp only [Function.comp_apply, if_neg hc]
    rw [List.map_congr_left hpt]
    exact hnd
  · rw [if_neg hp, List.map_append]
    refine List.Nodup.append hnd (by simp) ?_
    intro a ha hb
    have hb' : a = kIns := by simpa using hb
    obtain ⟨p, hpm, hpa⟩ := List.mem_map.mp ha
    exact hp (List.any_eq_true.mpr ⟨p, hpm, by simp [hpa, hb']⟩)

theorem mapAccum_go {V : Type} (add : V → V → V) (π : V → ℚ)
    (hπ : ∀ a b, π (add a b) = π a + π b) :
    ∀ (rows m processed : List (String × V)),
      (∀ e ∈ m, π e.2
        = ((processed.filter fun r => r.1 == e.1).map fun r => π r.2).sum) →
      (∀ k : String,
        (m.any fun p => p.1 == k) = (processed.any fun r => r.1 == k)) →
      ∀ e ∈ rows.foldl (fun acc r => mapUpsert add acc r.1 r.2) m,
        π e.2 = (((processed ++ rows).filter fun r => r.1 == e.1).map
          fun r => π r.2).sum := by
  intro rows
  induction rows with
  | nil =>
    intro m processed hval hkeys e he
    simpa using hval e he
  | cons r rows ih =>
    intro m processed hval hkeys e he
    rw [List.foldl_cons] at he
    have happ : processed ++ r :: rows = (processed ++ [r]) ++ rows := by simp
    rw [happ]
    refine ih (mapUpsert add m r.1 r.2) (processed ++ [r]) ?_ ?_ e he
    · intro e' he'
      unfold mapUpsert at he'
      by_cases hp : (m.any fun p => p.1 == r.1) = true
      · rw [if_pos hp] at he'
        obtain ⟨e₀, he₀, rfl⟩ := List.mem_map.mp he'
        by_cases hk : (e₀.1 == r.1) = true
        · rw [if_pos hk]
          have hke : e₀.1 = r.1 := by simpa using hk
          have hsingle : ([r].filter fun q => q.1 == e₀.1) = [r] := by
            simp [List.filter_cons, hke]
          rw [List.filter_append, List.map_append, List.sum_append, hsingle]
          simp only [hπ, List.map_cons, List.map_nil, List.sum_cons, List.sum_nil]
          rw [hval e₀ he₀]
          ring
        · rw [if_neg hk]
          have hke : ¬ e₀.1 = r.1 := by simpa using hk
          have hsingle : ([r].filter fun q => q.1 == e₀.1) = [] := by
            simp [List.filter_cons]
            exact fun hcontra => hke hcontra.symm
          rw [List.filter_append, List.map_append, List.sum_append, hsingle]
          simpa using hval e₀ he₀
      · rw [if_neg hp] at he'
        rcases List.mem_append.mp he' with hmem | hnew
        · have hkne : ¬ e'.1 = r.1 := by
            intro hcontra
            exact hp (List.any_eq_true.mpr ⟨e', hmem, by simp [hcontra]⟩)
          have hsingle : ([r].filter fun q => q.1 == e'.1) = [] := by
            simp [List.filter_cons]
            exact fun hcontra => hkne hcontra.symm
          rw [List.filter_append, List.map_append, List.sum_append, hsingle]
          simpa using hval e' hmem
        · have he'' : e' = (r.1, r.2) := by simpa using hnew
          subst he''
          have hproc : (processed.filter fun q => q.1 == r.1) = [] := by
            rw [List.filter_eq_nil_iff]
            intro q hq
            have hany := hkeys r.1
            rw [Bool.eq_iff_iff] at hany
            intro hcontra
            exact hp (hany.mpr (List.any_eq_true.mpr ⟨q, hq, hcontra⟩))
          have hsingle : ([r].filter fun q => q.1 == r.1) = [r] := by
            simp [List.filter_cons]
          rw [List.filter_append, List.map_append, List.sum_append, hproc, hsingle]
          simp
    · intro k
      rw [mapUpsert_any, hkeys k, List.any_append]
      simp

theorem mapAccum_entry {V : Type} (add : V → V → V) (π : V → ℚ)
    (hπ : ∀ a b, π (add a b) = π a + π b) (rows : List (String × V)) :
    ∀ e ∈ mapAccum add rows,
      π e.2 = ((rows.filter fun r => r.1 == e.1).map fun r => π r.2).sum := by
  intro e he
  have h := mapAccum_go add π hπ rows [] [] (by simp) (by simp) e he
  simpa using h

theorem mapAccum_keys_nodup {V : Type} (add : V → V → V)
    (rows : List (String × V)) :
    ((mapAccum add rows).map Prod.fst).Nodup := by
  unfold mapAccum
  suffices h : ∀ (rows m : List (String × V)), (m.map Prod.fst).Nodup →
      (((rows.foldl (fun acc r => mapUpsert add acc r.1 r.2) m)).map Prod.fst).Nodup by
    exact h rows [] (by simp)
  intro rows
  induction rows with
  | nil => intro m hm; simpa using hm
  | cons r rows ih =>
    intro m hm
    rw [List.foldl_cons]
    exact ih _ (mapUpsert_keys_nodup add hm r.1 r.2)

theorem mapAccum_any {V : Type} (add : V → V → V) (rows : List (String × V))
    (k : String) :
    ((mapAccum add rows).any fun p => p.1 == k)
      = (rows.any fun r => r.1 == k) := by
  unfold mapAccum
  suffices h : ∀ (rows m : List (String × V)),
      ((rows.foldl (fun acc r => mapUpsert add acc r.1 r.2) m).any fun p => p.1 == k)
        = ((m.any fun p => p.1 == k) || (rows.any fun r => r.1 == k)) by
    simpa using h rows []
  intro rows
  induction rows with
  | nil => intro m; simp
  | cons r rows ih =>
    intro m
    rw [List.foldl_cons, ih, mapUpsert_any]
    simp [Bool.or_assoc]

theorem mapAccum_entry_name {V : Type} (add : V → V → V) (ν : V → String)
    (hν : ∀ a b, ν (add a b) = ν a) (f : String → String)
    (rows : List (String × V)) (hrows : ∀ r ∈ rows, ν r.2 = f r.1) :
    ∀ e ∈ mapAccum add rows, ν e.2 = f e.1 := by
  unfold mapAccum
  suffices h : ∀ (rows m : List (String × V)), (∀ e ∈ m, ν e.2 = f e.1) →
      (∀ r ∈ rows, ν r.2 = f r.1) →
      ∀ e ∈ rows.foldl (fun acc r => mapUpsert add acc r.1 r.2) m,
        ν e.2 = f e.1 by
    exact h rows [] (by simp) hrows
  intro rows
  induction rows with
  | nil => intro m hm _ e he; exact hm e he
  | cons r rows ih =>
    intro m hm hrows e he
    rw [List.foldl_cons] at he
    refine ih _ ?_ (fun q hq => hrows q (by simp [hq])) e he
    intro e' he'
    unfold mapUpsert at he'
    by_cases hp : (m.any fun p => p.1 == r.1) = true
    · rw [if_pos hp] at he'
      obtain ⟨e₀, he₀, rfl⟩ := List.mem_map.mp he'
      by_cases hk : (e₀.1 == r.1) = true
      · rw [if_pos hk]
        simpa [hν] using hm e₀ he₀
      · rw [if_neg hk]
        exact hm e₀ he₀
    · rw [if_neg hp] at he'
      rcases List.mem_append.mp he' with hmem | hnew
      · exact hm e' hmem
      · have he'' : e' = (r.1, r.2) := by simpa using hnew
        subst he''
        exact hrows r (by simp)

theorem mapUpsert_sum_present {V : Type} (add : V → V → V) (π : V → ℚ)
    (hπ : ∀ a b, π (add a b) = π a + π b) (k : String) (v : V) :
    ∀ (m : List (String × V)), (m.map Prod.fst).Nodup →
      (m.any fun p => p.1 == k) = true →
      ((m.map fun p => if p.1 == k then (p.1, add p.2 v) else p).map
        fun e => π e.2).sum
        = ((m.map fun e => π e.2).sum) + π v := by
  intro m
  induction m with
  | nil => intro _ hp; simp at hp
  | cons p t ih =>
    intro hnd hp
    obtain ⟨hnd1, hnd2⟩ := List.nodup_cons.mp hnd
    by_cases hpk : (p.1 == k) = true
    · have hke : p.1 = k := by simpa using hpk
      have ht : (t.map fun q => if q.1 == k then (q.1, add q.2 v) else q)
          = t.map id := by
        apply List.map_congr_left
        intro q hq
        have hqk : ¬ (q.1 == k) = true := by
          simp only [beq_iff_eq]
          intro hcontra
          exact hnd1 (by
            rw [← hke] at hcontra
            exact hcontra ▸ List.mem_map_of_mem Prod.fst hq)
        rw [if_neg hqk]
        rfl
      simp only [List.map_cons, if_pos hpk, List.sum_cons, ht, List.map_id]
      rw [hπ]
      ring
    · have htany : (t.any fun q => q.1 == k) = true := by
        rcases List.any_eq_true.mp hp with ⟨q, hq, hqk⟩
        rcases List.mem_cons.mp hq with rfl | hqt
        · exact absurd hqk hpk
        · exact List.any_eq_true.mpr ⟨q, hqt, hqk⟩
      simp only [List.map_cons, if_neg hpk, List.sum_cons]
      rw [ih hnd2 htany]
      ring

theorem mapUpsert_sum {V : Type} (add : V → V → V) (π : V → ℚ)
    (hπ : ∀ a b, π (add a b) = π a + π b) {m : List (String × V)}
    (hnd : (m.map Prod.fst).Nodup) (k : String) (v : V) :
    ((mapUpsert add m k v).map fun e => π e.2).sum
      = ((m.map fun e => π e.2).sum) + π v := by
  unfold mapUpsert
  by_cases hp : (m.any fun p => p.1 == k) = true
  · rw [if_pos hp]
    exact mapUpsert_sum_present add π hπ k v m hnd hp
  · rw [if_neg hp, List.map_append, List.sum_append]
    simp

theorem mapAccum_sum {V : Type} (add : V → V → V) (π : V → ℚ)
    (hπ : ∀ a b, π (add a b) = π a + π b) (rows : List (String × V)) :
    ((mapAccum add rows).map fun e => π e.2).sum
      = (rows.map fun r => π r.2).sum := by
  unfold mapAccum
  suffices h : ∀ (rows m : List (String × V)), (m.map Prod.fst).Nodup →
      (((rows.foldl (fun acc r => mapUpsert add acc r.1 r.2) m)).map
        fun e => π e.2).sum
      = ((m.map fun e => π e.2).sum) + (rows.map fun r => π r.2).sum by
    simpa using h rows [] (by simp)
  intro rows
  induction rows with
  | nil => intro m _; simp
  | cons r rows ih =>
    intro m hnd
    rw [List.foldl_cons, ih _ (mapUpsert_keys_nodup add hnd r.1 r.2),
      mapUpsert_sum add π hπ hnd r.1 r.2]
    simp only [List.map_cons, List.sum_cons]
    ring

/-! ### Top vendors: claim C9 -/

theorem getD_map_of_lt {α β : Type} (f : α → β) (l : List α) {i : Nat}
    (h : i < l.length) (d : β) :
    (l.map f).getD i d = f (l.get ⟨i, h⟩) := by
  rw [List.getD_eq_getElem?_getD, List.getElem?_map, List.getElem?_eq_getElem h]
  rfl

theorem topVendors_rows_filter (s : Store) (vid : String) :
    ((vendorRows s).filter fun r => r.1 == vid)
    = (vendorInvoices s vid).map fun inv =>
        (inv.vendorId, (vendorNameOf s inv.vendorId, inv.total)) := by
  unfold vendorRows
  rw [List.filter_map]
  congr 1
  rw [List.filter_filter]
  unfold vendorInvoices
  apply List.filter_congr
  intro inv _
  by_cases h1 : inv.vendorId = vid <;> by_cases h2 : inv.status = "cancelled" <;>
    simp [h1, h2, Function.comp]

/-- Claim C9: for every store, the Top Vendors result has at most 10
entries, its data values are the per-vendor sums of total over non-cancelled
invoices rounded to 2 decimal places, and the data array is sorted
non-increasing. -/
theorem claim_C9_topVendors (s : Store) :
    (getTopVendors s).data.length ≤ 10 ∧
    (getTopVendors s).labels.length = (getTopVendors s).data.length ∧
    List.Sorted (· ≥ ·) (getTopVendors s).data ∧
    (∀ i : Nat, i < (getTopVendors s).data.length →
      ∃ vid : String,
        (getTopVendors s).labels.getD i "" = vendorNameOf s vid ∧
        (getTopVendors s).data.getD i 0
          = round2 (((vendorInvoices s vid).map Invoice.total).sum)) := by
  have hdata : (getTopVendors s).data
      = (vendorTop10 s).map fun v : String × ℚ => round2 v.2 := rfl
  have hlabels : (getTopVendors s).labels = (vendorTop10 s).map Prod.fst := rfl
  have hlen : (getTopVendors s).data.length ≤ 10 := by
    rw [hdata, List.length_map, vendorTop10, List.length_take]
    exact min_le_left _ _
  have hsorted : List.Pairwise (fun a b : String × ℚ => b.2 ≤ a.2)
      (((vendorTotals s).map Prod.snd).mergeSort fun a b => decide (b.2 ≤ a.2)) := by
    have h := @List.sorted_mergeSort (String × ℚ)
      (fun a b : String × ℚ => decide (b.2 ≤ a.2))
      (fun a b c h1 h2 => by
        simp only [decide_eq_true_eq] at *
        exact le_trans h2 h1)
      (fun a b => by
        simp only [Bool.or_eq_true, decide_eq_true_eq]
        exact le_total b.2 a.2)
      ((vendorTotals s).map Prod.snd)
    exact h.imp (by simp only [decide_eq_true_eq]; exact fun h => h)
  refine ⟨hlen, ?_, ?_, ?_⟩
  · rw [hdata, hlabels, List.length_map, List.length_map]
  · rw [hdata]
    refine List.Pairwise.map _ ?_
      (hsorted.sublist (List.take_sublist _ _))
    intro a b hab
    exact round2_mono hab
  · intro i hi
    have hi' : i < (vendorTop10 s).length := by
      rw [hdata, List.length_map] at hi
      exact hi
    have hv : (vendorTop10 s).get ⟨i, hi'⟩ ∈ vendorTop10 s :=
      List.get_mem _ _ hi'
    have hvsorted : (vendorTop10 s).get ⟨i, hi'⟩
        ∈ (((vendorTotals s).map Prod.snd).mergeSort
            fun a b => decide (b.2 ≤ a.2)) :=
      (List.take_sublist _ _).mem hv
    have hvvals : (vendorTop10 s).get ⟨i, hi'⟩
        ∈ (vendorTotals s).map Prod.snd :=
      (List.mergeSort_perm _ _).mem_iff.mp hvsorted
    obtain ⟨e, he, hev⟩ := List.mem_map.mp hvvals
    refine ⟨e.1, ?_, ?_⟩
    · have hname := mapAccum_entry_name
        (fun old new : String × ℚ => (old.1, old.2 + new.2)) Prod.fst
        (fun a b => rfl) (vendorNameOf s) (vendorRows s)
        (by
          intro r hr
          obtain ⟨inv, _, rfl⟩ := List.mem_map.mp hr
          rfl)
        e he
      rw [hlabels, getD_map_of_lt Prod.fst (vendorTop10 s) hi' ""]
      rw [← hev, hname]
    · have hval := mapAccum_entry
        (fun old new : String × ℚ => (old.1, old.2 + new.2)) Prod.snd
        (fun a b => rfl) (vendorRows s) e he
      rw [topVendors_rows_filter s e.1, List.map_map] at hval
      rw [hdata, getD_map_of_lt _ (vendorTop10 s) hi' 0]
      rw [← hev, hval]
      rfl

/-- Witness for claim C9 at a concrete store and index. -/
theorem claim_C9_topVendors_witness :
    0 < (getTopVendors storePending).data.length ∧
    ∃ vid : String,
      (getTopVendors storePending).labels.getD 0 ""
        = vendorNameOf storePending vid ∧
      (getTopVendors storePending).data.getD 0 0
        = round2 (((vendorInvoices storePending vid).map Invoice.total).sum) := by
  have hlen : 0 < (getTopVendors storePending).data.length := by
    show 0 < ((vendorTop10 storePending).map fun v : String × ℚ => round2 v.2).length
    rw [List.length_map, vendorTop10, List.length_take, List.length_mergeSort,
      List.length_map]
    have : (vendorTotals storePending).length = 1 := by decide
    rw [this]
    norm_num
  exact ⟨hlen, (claim_C9_topVendors storePending).2.2.2 0 hlen⟩

/-! ### Category spend: claim C3 -/

theorem any_key_iff_mem_keys {V : Type} (l : List (String × V)) (k : String) :
    (l.any fun p => p.1 == k) = true ↔ k ∈ l.map Prod.fst := by
  rw [List.any_eq_true]
  constructor
  · rintro ⟨p, hp, hpk⟩
    have : p.1 = k := by simpa using hpk
    exact this ▸ List.mem_map_of_mem Prod.fst hp
  · intro hk
    obtain ⟨p, hp, hpk⟩ := List.mem_map.mp hk
    exact ⟨p, hp, by simp [hpk]⟩

theorem categoryRows_filter (s : Store) (name : String) :
    ((categoryRows s).filter fun r => r.1 == name)
      = (bucketItems s name).map fun item => (categoryNameOf s item, item.amount) := by
  unfold categoryRows
  rw [List.filter_map]
  unfold bucketItems
  refine congrArg (List.map _) ?_
  apply List.filter_congr
  intro item _
  by_cases h : categoryNameOf s item = name <;> simp [h, Function.comp]

theorem categorySorted_labels_perm (s : Store) :
    ((categorySorted s).map Prod.fst).Perm ((categoryTotals s).map Prod.fst) := by
  have hperm := List.mergeSort_perm
    ((categoryTotals s).map fun e => (e.1, round2 e.2))
    fun a b : String × ℚ => decide (b.2 ≤ a.2)
  have h := hperm.map Prod.fst
  rw [List.map_map] at h
  exact h

/-- Counterexample to claim C3 as stated: with a single uncategorised line
item of amount 1/250, the returned bucket value is rounded to 0, so the sum
of bucket values differs from the sum of line item amounts. -/
theorem claim_C3_counterexample :
    ¬ ((getCategorySpend storeFractionalCent).data.sum
        = (storeFractionalCent.lineItems.map LineItem.amount).sum) := by
  intro h
  have hdata : (getCategorySpend storeFractionalCent).data = [round2 (1/250)] := by
    show (List.map Prod.snd (categorySorted storeFractionalCent)) = _
    rw [show categorySorted storeFractionalCent
      = [("Uncategorized", round2 (1/250))] from by
        unfold categorySorted categoryTotals categoryRows
        norm_num [mapAccum, mapUpsert, storeFractionalCent, categoryNameOf,
          List.mergeSort]]
    rfl
  rw [hdata] at h
  norm_num [storeFractionalCent, round2] at h

/-- Claim C3, amended: every line item contributes to exactly one bucket
(the buckets are distinct and each item finds its bucket among the labels);
each returned value is the rounded per-bucket total, and the sum of the
unrounded bucket totals equals the sum of all line item amounts; the sum of
the returned (rounded) values equals the sum of all amounts whenever every
amount is a whole number of cents. -/
theorem claim_C3_categorySpend_amended (s : Store) :
    (getCategorySpend s).labels.Nodup ∧
    (∀ item ∈ s.lineItems, categoryNameOf s item ∈ (getCategorySpend s).labels) ∧
    (∀ i : Nat, i < (getCategorySpend s).data.length →
      ∃ name : String,
        (getCategorySpend s).labels.getD i "" = name ∧
        (getCategorySpend s).data.getD i 0
          = round2 (((bucketItems s name).map LineItem.amount).sum)) ∧
    ((categoryTotals s).map fun e => e.2).sum
        = (s.lineItems.map LineItem.amount).sum ∧
    ((∀ item ∈ s.lineItems, IsCents item.amount) →
      (getCategorySpend s).data.sum = (s.lineItems.map LineItem.amount).sum) := by
  have hdata : (getCategorySpend s).data = (categorySorted s).map Prod.snd := rfl
  have hlabels : (getCategorySpend s).labels = (categorySorted s).map Prod.fst := rfl
  have hentry : ∀ e ∈ categoryTotals s,
      e.2 = ((bucketItems s e.1).map LineItem.amount).sum := by
    intro e he
    have h := mapAccum_entry (fun old new : ℚ => old + new) id
      (fun a b => rfl) (categoryRows s) e he
    rw [categoryRows_filter s e.1, List.map_map] at h
    simpa using h
  have hsum : ((categoryTotals s).map fun e => e.2).sum
      = (s.lineItems.map LineItem.amount).sum := by
    have h := mapAccum_sum (fun old new : ℚ => old + new) id
      (fun a b => rfl) (categoryRows s)
    unfold categoryTotals
    rw [show ((mapAccum (fun old new : ℚ => old + new) (categoryRows s)).map
        fun e => e.2) = ((mapAccum (fun old new : ℚ => old + new)
        (categoryRows s)).map fun e => id e.2) from rfl, h]
    unfold categoryRows
    rw [List.map_map]
    rfl
  refine ⟨?_, ?_, ?_, hsum, ?_⟩
  · rw [hlabels]
    exact (categorySorted_labels_perm s).nodup_iff.mpr
      (mapAccum_keys_nodup _ _)
  · intro item hitem
    rw [hlabels]
    refine (categorySorted_labels_perm s).mem_iff.mpr ?_
    have hk : categoryNameOf s item ∈ (categoryRows s).map Prod.fst := by
      unfold categoryRows
      rw [List.map_map]
      exact List.mem_map_of_mem _ hitem
    have h := (any_key_iff_mem_keys (categoryRows s) (categoryNameOf s item)).mpr hk
    rw [← mapAccum_any (fun old new : ℚ => old + new)] at h
    exact (any_key_iff_mem_keys _ _).mp h
  · intro i hi
    have hi' : i < (categorySorted s).length := by
      rw [hdata, List.length_map] at hi
      exact hi
    have hv : (categorySorted s).get ⟨i, hi'⟩ ∈ categorySorted s :=
      List.get_mem _ _ hi'
    have hvvals : (categorySorted s).get ⟨i, hi'⟩
        ∈ (categoryTotals s).map fun e => (e.1, round2 e.2) :=
      (List.mergeSort_perm _ _).mem_iff.mp hv
    obtain ⟨t, ht, htv⟩ := List.mem_map.mp hvvals
    refine ⟨t.1, ?_, ?_⟩
    · rw [hlabels, getD_map_of_lt Prod.fst (categorySorted s) hi' ""]
      rw [← htv]
    · rw [hdata, getD_map_of_lt Prod.snd (categorySorted s) hi' 0]
      rw [← htv]
      show round2 t.2 = _
      rw [hentry t ht]
  · intro hcents
    have hround : ∀ t ∈ categoryTotals s, round2 t.2 = t.2 := by
      intro t ht
      refine round2_cents ?_
      rw [hentry t ht]
      refine IsCents.sum_list ?_
      intro q hq
      obtain ⟨item, hitem, rfl⟩ := List.mem_map.mp hq
      exact hcents item (List.mem_of_mem_filter hitem)
    have hpermsum : (getCategorySpend s).data.sum
        = (((categoryTotals s).map fun e => (e.1, round2 e.2)).map Prod.snd).sum := by
      rw [hdata]
      exact ((List.mergeSort_perm _ _).map Prod.snd).sum_eq
    rw [hpermsum, List.map_map, ← hsum]
    refine congrArg List.sum ?_
    apply List.map_congr_left
    intro t ht
    exact hround t ht

/-- Witness for the amended claim C3 at a concrete store of whole-cent
amounts. -/
theorem claim_C3_categorySpend_amended_witness :
    (∀ item ∈ storeWholeCent.lineItems, IsCents item.amount) ∧
    (getCategorySpend storeWholeCent).data.sum
      = (storeWholeCent.lineItems.map LineItem.amount).sum := by
  have hcents : ∀ item ∈ storeWholeCent.lineItems, IsCents item.amount := by
    intro item hitem
    have : item = ⟨"li1", "i1", some "cat1", 3/100⟩ := by
      simpa [storeWholeCent] using hitem
    exact ⟨3, by rw [this]; norm_num⟩
  exact ⟨hcents,
    (claim_C3_categorySpend_amended storeWholeCent).2.2.2.2 hcents⟩

/-! ### Invoice search: claims C4 and C8 -/

/-- Claim C4: for every Invoice Search request and every store, hasMore is
true exactly when offset plus the number of returned rows is below the
total, and the returned rows are ordered by issue date descending. -/
theorem claim_C4_invoicesPagination (s : Store) (p : InvoicesQuery) :
    ((getInvoices s p).pagination.hasMore = true ↔
      (getInvoices s p).pagination.offset + (getInvoices s p).data.length
        < (getInvoices s p).pagination.total) ∧
    List.Sorted (fun a b : Invoice => b.issueDate.key ≤ a.issueDate.key)
      (getInvoices s p).data := by
  constructor
  · exact decide_eq_true_iff
  · have hsorted : List.Pairwise
        (fun a b : Invoice => b.issueDate.key ≤ a.issueDate.key)
        (invoicesSorted s p) := by
      have h := @List.sorted_mergeSort Invoice
        (fun a b : Invoice => decide (b.issueDate.key ≤ a.issueDate.key))
        (fun a b c h1 h2 => by
          simp only [decide_eq_true_eq] at *
          exact le_trans h2 h1)
        (fun a b => by
          simp only [Bool.or_eq_true, decide_eq_true_eq]
          exact le_total b.issueDate.key a.issueDate.key)
        (invoicesFiltered s p)
      exact h.imp (by simp only [decide_eq_true_eq]; exact fun h => h)
    show List.Pairwise _ (invoicesPage s p)
    exact hsorted.sublist
      ((List.take_sublist _ _).trans (List.drop_sublist _ _))

/-- Counterexample to claim C8 as stated: with one pending invoice, the
request with status equal to the literal all returns an empty result set,
while omitting status returns the invoice, so the two result sets differ. -/
theorem claim_C8_counterexample :
    getInvoices storePending { status := "all" }
      ≠ getInvoices storePending {} := by
  intro h
  have h1 : (getInvoices storePending { status := "all" }).pagination.total = 0 := by
    show (invoicesFiltered storePending _).length = 0
    decide
  have h2 : (getInvoices storePending {}).pagination.total = 1 := by
    show (invoicesFiltered storePending _).length = 1
    decide
  rw [h, h2] at h1
  exact absurd h1 (by decide)

/-- Claim C8, amended: an empty status parameter applies no status filter
(it coincides with the omitted-parameter default), but the literal sentinel
all is passed through as an exact status match, so on a store whose
invoices carry the four real status values it matches nothing: the result
set is empty rather than unfiltered. -/
theorem claim_C8_statusAll_amended (s : Store) (p : InvoicesQuery)
    (hall : p.status = "all")
    (hstatuses : ∀ inv ∈ s.invoices, inv.status = "pending"
      ∨ inv.status = "paid" ∨ inv.status = "overdue"
      ∨ inv.status = "cancelled") :
    (getInvoices s p).pagination.total = 0 ∧
    (getInvoices s p).data = [] ∧
    (∀ q : InvoicesQuery, q.status = "" →
      getInvoices s q = getInvoices s { q with status := "" }) := by
  have hfiltered : invoicesFiltered s p = [] := by
    rw [invoicesFiltered, List.filter_eq_nil_iff]
    intro inv hinv
    rcases hstatuses inv hinv with h | h | h | h <;>
      simp [invoiceMatches, hall, h]
  refine ⟨?_, ?_, ?_⟩
  · show (invoicesFiltered s p).length = 0
    rw [hfiltered]
    rfl
  · show invoicesPage s p = []
    rw [invoicesPage, invoicesSorted, hfiltered]
    simp
  · intro q hq
    have hqeq : { q with status := "" } = q := by
      cases q
      simp_all
    rw [hqeq]

/-- Witness for the amended claim C8 at a concrete store. -/
theorem claim_C8_statusAll_amended_witness :
    (∀ inv ∈ storePending.invoices, inv.status = "pending"
      ∨ inv.status = "paid" ∨ inv.status = "overdue"
      ∨ inv.status = "cancelled") ∧
    (getInvoices storePending { status := "all" }).pagination.total = 0 :=
  ⟨by decide,
    (claim_C8_statusAll_amended storePending { status := "all" } rfl
      (by decide)).1⟩

/-! ### Stats: claim C5 -/

/-- Claim C5: when the underlying query fails, the stats route still
responds 200 with the well-formed zeroed object, and the route never
answers with any status other than 200. -/
theorem claim_C5_statsFailure (now : YMDate) :
    statsRoute (Except.error ()) now = (200, zeroStats) ∧
    (∀ db : Except Unit Store, (statsRoute db now).1 = 200) := by
  refine ⟨rfl, ?_⟩
  intro db
  cases db <;> rfl

/-! ### Chat proxy: claim C6 -/

/-- Claim C6: the chat proxy answers 400 for a missing or empty query
without consulting the upstream outcome; it relays the upstream status code
and the extracted message on an upstream HTTP error; and it answers 503
with the fixed guidance message whenever the upstream is unreachable, for
every non-empty query. -/
theorem claim_C6_chatProxy :
    (∀ u : ChatUpstream,
      chatRoute none u
        = { status := 400, error := some "Query is required"
            message := none, payload := none } ∧
      chatRoute (some "") u
        = { status := 400, error := some "Query is required"
            message := none, payload := none }) ∧
    (∀ q : String, q ≠ "" →
      ∀ (st : Nat) (detail errField msg : Option String) (em : String),
        (chatRoute (some q) (.httpError st detail errField msg em)).status = st ∧
        (chatRoute (some q) (.httpError st detail errField msg em)).error
          = some "Vanna AI service error" ∧
        (chatRoute (some q) (.httpError st detail errField msg em)).message
          = some (jsStrOr (jsStrOrOpt detail (jsStrOrOpt errField msg)) em)) ∧
    (∀ q : String, q ≠ "" → ∀ em : String,
      chatRoute (some q) (.networkError em)
        = { status := 503, error := some "Vanna AI service unavailable"
            message := some "Please ensure the Vanna service is running on port 8000"
            payload := none }) := by
  refine ⟨?_, ?_, ?_⟩
  · intro u
    constructor
    · rfl
    · rfl
  · intro q hq st detail errField msg em
    have hne : ¬ ((some q : Option String).getD ("") = "") := by simpa using hq
    unfold chatRoute
    rw [if_neg hne]
    exact ⟨rfl, rfl, rfl⟩
  · intro q hq em
    have hne : ¬ ((some q : Option String).getD ("") = "") := by simpa using hq
    unfold chatRoute
    rw [if_neg hne]

/-- Witness for claim C6 at a concrete query and upstream outcome. -/
theorem claim_C6_chatProxy_witness :
    ("total spend" ≠ "") ∧
    chatRoute (some "total spend") (.networkError "connect ECONNREFUSED")
      = { status := 503, error := some "Vanna AI service unavailable"
          message := some "Please ensure the Vanna service is running on port 8000"
          payload := none } :=
  ⟨by decide,
    claim_C6_chatProxy.2.2 "total spend" (by decide) "connect ECONNREFUSED"⟩

/-! ### Chart shape alignment: claim C10 -/

/-- Claim C10: each chart-shaped response keeps its arrays aligned: the
labels length equals the length of every data array in the response, for
the trends, top-vendors, category-spend and cash-outflow charts. -/
theorem claim_C10_chartAlignment (basis : Option String) (now : YMDate)
    (s : Store) :
    ((getInvoiceTrends basis now s).labels.length = 12 ∧
      (∀ ds ∈ (getInvoiceTrends basis now s).datasets,
        ds.data.length = (getInvoiceTrends basis now s).labels.length)) ∧
    (getTopVendors s).labels.length = (getTopVendors s).data.length ∧
    (getCategorySpend s).labels.length = (getCategorySpend s).data.length ∧
    (getCashOutflow now s).labels.length = (getCashOutflow now s).data.length := by
  have htrlen : (getInvoiceTrends basis now s).labels.length = 12 := by
    show ((trendsMonths now).map monthLabel).length = 12
    rw [List.length_map]
    exact monthsFrom_length _ _
  refine ⟨⟨htrlen, ?_⟩, ?_, ?_, ?_⟩
  · intro ds hds
    rw [htrlen]
    rcases List.mem_cons.mp hds with rfl | hds2
    · show ((trendsMonths now).map _).length = 12
      rw [List.length_map]
      exact monthsFrom_length _ _
    · rcases List.mem_cons.mp hds2 with rfl | hds3
      · show ((trendsMonths now).map _).length = 12
        rw [List.length_map]
        exact monthsFrom_length _ _
      · cases hds3
  · show ((vendorTop10 s).map Prod.fst).length = ((vendorTop10 s).map _).length
    rw [List.length_map, List.length_map]
  · show ((categorySorted s).map Prod.fst).length
      = ((categorySorted s).map Prod.snd).length
    rw [List.length_map, List.length_map]
  · show ((monthsFrom now.absMonth 6).map monthLabel).length
      = ((monthsFrom now.absMonth 6).map _).length
    rw [List.length_map, List.length_map]

/-- Witness for claim C10 at a concrete store, date and dataset. -/
theorem claim_C10_chartAlignment_witness :
    ((getInvoiceTrends none juneDate storeCash).datasets.getD 0 emptyDataset
        ∈ (getInvoiceTrends none juneDate storeCash).datasets) ∧
    ((getInvoiceTrends none juneDate storeCash).datasets.getD 0
        emptyDataset).data.length
      = (getInvoiceTrends none juneDate storeCash).labels.length := by
  have hmem : (getInvoiceTrends none juneDate storeCash).datasets.getD 0
      emptyDataset ∈ (getInvoiceTrends none juneDate storeCash).datasets :=
    List.mem_cons_self _ _
  exact ⟨hmem,
    (claim_C10_chartAlignment none juneDate storeCash).1.2 _ hmem⟩

end InvoiceAnalytics
